import Mathlib

/-!
Verification of the SoundCloud scraper-to-HTML pipeline
(`scraper-to-html.py`, `HTML_page_generator.py`).

Strings are modelled as lists of characters (`Str`).  External effects
(HTTP HEAD resolution, the `scdl` subprocess, cover-art extraction) are
modelled as oracle functions passed in as parameters; directory listings
are finite sets of file names, mirroring `set(os.listdir(...))`.
-/

/-- Strings of the embedded program, as character lists. -/
abbrev Str := List Char

/-- Python `\s` on the ASCII range: the whitespace characters recognised by
`re` when splitting the URL tail.  (The inputs of interest are ASCII; the
additional Unicode whitespace accepted by Python `re` plays no role in any
claim.) -/
def isPySpace (c : Char) : Bool :=
  c = ' ' || c = '\t' || c = '\n' || c = '\r' || c = '\x0b' || c = '\x0c'

/-- `startsWithL hay pre` : does `hay` begin with `pre`?  (Python `str.startswith`.) -/
def startsWithL : Str → Str → Bool
  | _, [] => true
  | [], _ :: _ => false
  | h :: hs, p :: ps => h = p && startsWithL hs ps

/-- If `pre` is an initial segment of `hay`, return the remainder. -/
def dropPre : Str → Str → Option Str
  | hay, [] => some hay
  | [], _ :: _ => none
  | h :: hs, p :: ps => if h = p then dropPre hs ps else none

/-- `containsSeq hay needle` : Python `needle in hay` (contiguous substring test). -/
def containsSeq : Str → Str → Bool
  | [], needle => needle.isEmpty
  | h :: t, needle => startsWithL (h :: t) needle || containsSeq t needle

/-- Python `str.lower` restricted to the ASCII letters.  (Python applies the
full Unicode lowercase mapping, but no non-ASCII character lowercases to any
of `.`, `m`, `p`, `3`, so for the `.mp3` suffix test the ASCII mapping is
exact.) -/
def charLowerAscii (c : Char) : Char :=
  if 'A' ≤ c ∧ c ≤ 'Z' then Char.ofNat (c.toNat + 32) else c

/-- Python `str.lower` (see `charLowerAscii`). -/
def pyLower (s : Str) : Str := s.map charLowerAscii

/-- `endsWithL hay suf` : Python `str.endswith`. -/
def endsWithL (hay suf : Str) : Bool := startsWithL hay.reverse suf.reverse

/-- The filter applied to newly observed files in `_download_tracks`
(line 145: `f.lower().endswith(".mp3")`). -/
def isMp3 (f : Str) : Bool := endsWithL (pyLower f) ".mp3".data

/-! ## Link Extractor (`_extract_soundcloud_links`, lines 85-103)

The regex is `(https?://(?:on\.soundcloud\.com|soundcloud\.com)/[^\s]+)`.
At a fixed start position the pattern is committed: if the optional `s`
is present it must be taken (backtracking to the empty alternative would
require `://` to start with `s`), and if the host alternative
`on.soundcloud.com` matches, the second alternative cannot match at the
same position.  So a deterministic first-match scanner is faithful to
`re.findall`. -/

/-- Try to match the SoundCloud-URL regex at the start of `cs`.  On success,
return the matched text and the remaining input (Python `re` resumes
scanning at the end of a match). -/
def tryMatch (cs : Str) : Option (Str × Str) := do
  let r1 ← dropPre cs "http".data
  let (sPart, r2) :=
    match r1 with
    | 's' :: t => (['s'], t)
    | _ => (([] : Str), r1)
  let r3 ← dropPre r2 "://".data
  let (host, r4) ←
    match dropPre r3 "on.soundcloud.com".data with
    | some r => some ("on.soundcloud.com".data, r)
    | none =>
      match dropPre r3 "soundcloud.com".data with
      | some r => some ("soundcloud.com".data, r)
      | none => none
  let r5 ← dropPre r4 "/".data
  let tail := r5.takeWhile (fun c => !isPySpace c)
  if tail.isEmpty then
    none
  else
    some ("http".data ++ sPart ++ "://".data ++ host ++ "/".data ++ tail,
          r5.drop tail.length)

/-- One scanning pass of `re.findall`, with fuel (a successful match always
consumes at least one character, so `fuel = cs.length` suffices). -/
def findAllFuel : Nat → Str → List Str
  | 0, _ => []
  | _ + 1, [] => []
  | fuel + 1, c :: t =>
    match tryMatch (c :: t) with
    | some (m, rest) => m :: findAllFuel fuel rest
    | none => findAllFuel fuel t

/-- All regex matches in one input string, left to right, non-overlapping
(`re.findall(pattern, text)`). -/
def findAll (cs : Str) : List Str := findAllFuel cs.length cs

/-- `found_links` after the loop of `_extract_soundcloud_links`: the matches
of every input string, concatenated in input order (lines 95-99). -/
def foundLinks (strings : List Str) : List Str :=
  (strings.map findAll).flatten

/-- The final assignment (line 102) is `list(set(found_links))`: a Python
`set` iterates in an unspecified, hash-dependent order, so the statement is
modelled relationally.  `extractLinksRel strings out` holds exactly when
`out` is a possible value of `self._soundcloud_links`. -/
def extractLinksRel (strings : List Str) (out : List Str) : Prop :=
  out.Nodup ∧ ∀ l : Str, l ∈ out ↔ l ∈ foundLinks strings

/-- First-occurrence-order deduplication (the order the spec asks for),
with an accumulator of already-seen elements. -/
def dedupFirstAux (seen : List Str) : List Str → List Str
  | [] => []
  | x :: t => if x ∈ seen then dedupFirstAux seen t else x :: dedupFirstAux (x :: seen) t

/-- First-occurrence-order deduplication. -/
def dedupFirst (l : List Str) : List Str := dedupFirstAux [] l

/-! ## Link Resolver (`_resolve_short_links`, lines 105-127)

`requests.head(link, allow_redirects=True)` is an external call.  It is
modelled by an oracle `head : Str → Option (Nat × Str)`:
`none` means the call raised `requests.RequestException` (timeout, DNS
failure, connection error, too many redirects); `some (status, url)` means
the call returned a response whose terminal status code is `status` and
whose final URL (`response.url`) is `url`.  Note that `requests` does not
raise on a non-2xx status: such a call returns normally.  The code reads
only `response.url` and never inspects the status. -/

/-- The substring test of line 113: `"on.soundcloud.com" in link`. -/
def isShortLink (link : Str) : Bool := containsSeq link "on.soundcloud.com".data

/-- `_resolve_short_links`, instrumented: the first component is the new
`self._soundcloud_links`; the second records, in order, each link for which
a `requests.head` call was issued (exactly one call per short link). -/
def resolveLinks (head : Str → Option (Nat × Str)) : List Str → List Str × List Str
  | [] => ([], [])
  | link :: rest =>
    let (rs, calls) := resolveLinks head rest
    if isShortLink link then
      match head link with
      | some (_, fullUrl) => (fullUrl :: rs, link :: calls)
      | none => (link :: rs, link :: calls)
    else
      (link :: rs, calls)

/-! ## Download Orchestrator (`_download_tracks`, lines 129-157)

Directory listings are `Finset Str`, mirroring `set(os.listdir(...))`.
The external `scdl` invocation is an oracle `scdl : Str → Finset Str →
Finset Str` giving the directory contents after running `scdl -l link`
with the given contents before.  (A failing invocation is just an oracle
that adds nothing; `_run_scdl_command` swallows the error.)  The per-file
cover-art extraction (`_extract_image`) is downstream I/O that does not
affect which files are attributed to which link, so the result records the
set of new MP3 files per link.  The second component records, in order,
the links for which the `else` branch logged
`"No MP3 files downloaded for link"`. -/

/-- `_download_tracks`: fold over the links, diffing the directory listing
around each `scdl` invocation, keeping `f.lower().endswith(".mp3")` files,
recording a `(link, mp3s)` entry only when the set is non-empty. -/
def downloadTracks (scdl : Str → Finset Str → Finset Str) :
    List Str → Finset Str → List (Str × Finset Str) × List Str
  | [], _ => ([], [])
  | link :: rest, filesBefore =>
    let filesAfter := scdl link filesBefore
    let newFiles := filesAfter \ filesBefore
    let mp3Files := newFiles.filter (fun f => isMp3 f = true)
    let (rs, ws) := downloadTracks scdl rest filesAfter
    if mp3Files = ∅ then (rs, link :: ws) else ((link, mp3Files) :: rs, ws)

/-- Directory contents after invoking `scdl` on each of `links` in order,
starting from `s0` (the state threaded through `_download_tracks`). -/
def dirAfterRun (scdl : Str → Finset Str → Finset Str) (links : List Str)
    (s0 : Finset Str) : Finset Str :=
  links.foldl (fun s l => scdl l s) s0

/-! ## Archive Builder (`_create_zip`, lines 208-222)

The zip is written entry by entry; each `zipf.write(mp3_fullpath,
arcname=mp3_file)` is modelled as the pair `(fullpath, arcname)`.  The
`DownloadResult` consumed here (and by the page generator) is the stored
list `self._download_results : List (link × track_data)` with
`track_data : List (mp3_file × Option cover)`. -/

abbrev DownloadResult := List (Str × List (Str × Option Str))

/-- `_create_zip`: one `(fullpath, arcname)` pair per `zipf.write` call, in
iteration order over `self._download_results`. -/
def createZip (outputDir : Str) (results : DownloadResult) : List (Str × Str) :=
  results.flatMap (fun r =>
    r.2.map (fun td => (outputDir ++ "/".data ++ td.1, td.1)))

/-! ## Page Generator (`_collect_ordered_tracks`, HTML_page_generator.py
lines 49-69) -/

/-- One entry of `self.ordered_tracks`. -/
structure TrackEntry where
  anchorId : Str
  mp3File : Str
  imageFile : Option Str
  title : Str
  link : Str
  deriving DecidableEq, Repr

/-- `os.path.splitext(p)[0]`: strip the last extension.  A dot only counts
if a non-dot character precedes it in the basename (so `.bashrc` keeps its
name); filenames here come from `os.listdir`, hence contain no `/`. -/
def splitextBase (f : Str) : Str :=
  let rev := f.reverse
  let extLen := (rev.takeWhile (fun c => c ≠ '.')).length
  if extLen < rev.length ∧ extLen + 1 < rev.length ∧
      (rev.drop (extLen + 1)).all (fun c => c = '.') = false then
    (rev.drop (extLen + 1)).reverse
  else
    f

/-- The inner loop of `_collect_ordered_tracks` for one link, starting at
counter value `c` (`track_count` is 1-based). -/
def collectLinkTracks (c : Nat) (link : Str) :
    List (Str × Option Str) → List TrackEntry
  | [] => []
  | (mp3File, imageFile) :: rest =>
    { anchorId := "track-".data ++ (Nat.repr c).data
      mp3File := mp3File
      imageFile := imageFile
      title := splitextBase mp3File
      link := link } :: collectLinkTracks (c + 1) link rest

/-- The outer loop of `_collect_ordered_tracks`, starting at counter `c`. -/
def collectOrderedTracksAux (c : Nat) : DownloadResult → List TrackEntry
  | [] => []
  | (link, trackData) :: rest =>
    collectLinkTracks c link trackData ++
      collectOrderedTracksAux (c + trackData.length) rest

/-- `_collect_ordered_tracks`: `track_count` starts at 1. -/
def collectOrderedTracks (results : DownloadResult) : List TrackEntry :=
  collectOrderedTracksAux 1 results

/-! ## Dedup/Normalizer

No dedup/normalizer stage exists in the two source files. -/

/-- Modelled from the spec: the Dedup/Normalizer stage (spec §4.4) is
missing from the source under `src/`; only the spec describes it.  For each
new file, compute its Unicode-canonical-form (NFC) name — NFC itself is the
parameter `nfc`; if the canonical name is already in the run-scoped
seen-names registry `reg`, discard the file; otherwise register the
canonical name and accept the file as `(raw, canonical)`.  (The subsequent
rename of the on-disk file never changes acceptance: per the spec a rename
failure falls back to the raw name rather than dropping the file.) -/
def dedupNewFilesAux (nfc : Str → Str) (reg : List Str) : List Str → List (Str × Str)
  | [] => []
  | raw :: rest =>
    let canonical := nfc raw
    if canonical ∈ reg then
      dedupNewFilesAux nfc reg rest
    else
      (raw, canonical) :: dedupNewFilesAux nfc (canonical :: reg) rest

/-- Modelled from the spec: the Dedup stage over a run, starting from an
empty seen-names registry. -/
def dedupNewFiles (nfc : Str → Str) (files : List Str) : List (Str × Str) :=
  dedupNewFilesAux nfc [] files

/-! ## Pipeline (`process_strings`, lines 56-83)

`process_strings` runs every stage unconditionally: extraction, resolution,
download, `_create_zip` (opens the zip for writing in any case) and
`_generate_html_page` (writes `index.html` in any case).  The trace records
what each run performs. -/

/-- Observable trace of one `process_strings` run, given the value chosen
for `list(set(found_links))` (see `extractLinksRel`). -/
structure RunTrace where
  resolvedLinks : List Str
  results : List (Str × Finset Str)
  emptyLinkWarnings : List Str
  zipCreated : Bool
  pageGenerated : Bool

/-- The stages of `process_strings` after link extraction, in order.  There
is no emptiness test anywhere: `_create_zip` and `_generate_html_page` run
whether or not any link or track exists. -/
def processRun (head : Str → Option (Nat × Str))
    (scdl : Str → Finset Str → Finset Str) (s0 : Finset Str)
    (links : List Str) : RunTrace :=
  let resolved := (resolveLinks head links).1
  let (rs, ws) := downloadTracks scdl resolved s0
  { resolvedLinks := resolved
    results := rs
    emptyLinkWarnings := ws
    zipCreated := true
    pageGenerated := true }

/-! ## Helper lemmas -/

lemma mem_dedupFirstAux (x : Str) :
    ∀ (l seen : List Str), x ∈ dedupFirstAux seen l ↔ x ∈ l ∧ x ∉ seen := by
  intro l
  induction l with
  | nil => intro seen; simp [dedupFirstAux]
  | cons y t ih =>
    intro seen
    by_cases hy : y ∈ seen
    · simp only [dedupFirstAux, if_pos hy, ih]
      constructor
      · rintro ⟨hxt, hxs⟩; exact ⟨List.mem_cons_of_mem _ hxt, hxs⟩
      · rintro ⟨hxt, hxs⟩
        rcases List.mem_cons.mp hxt with rfl | hxt
        · exact absurd hy hxs
        · exact ⟨hxt, hxs⟩
    · simp only [dedupFirstAux, if_neg hy, List.mem_cons, ih]
      by_cases hxy : x = y
      · subst hxy; tauto
      · tauto

lemma nodup_dedupFirstAux :
    ∀ (l seen : List Str), (dedupFirstAux seen l).Nodup := by
  intro l
  induction l with
  | nil => intro seen; simp [dedupFirstAux]
  | cons y t ih =>
    intro seen
    by_cases hy : y ∈ seen
    · simpa [dedupFirstAux, if_pos hy] using ih seen
    · rw [dedupFirstAux, if_neg hy]
      refine List.nodup_cons.mpr ⟨?_, ih (y :: seen)⟩
      intro hmem
      exact ((mem_dedupFirstAux y t (y :: seen)).mp hmem).2 (List.mem_cons_self y seen)

lemma dedupNewFilesAux_map_snd (nfc : Str → Str) :
    ∀ (files reg : List Str),
      (dedupNewFilesAux nfc reg files).map Prod.snd = dedupFirstAux reg (files.map nfc) := by
  intro files
  induction files with
  | nil => intro reg; simp [dedupNewFilesAux, dedupFirstAux]
  | cons raw rest ih =>
    intro reg
    by_cases h : nfc raw ∈ reg
    · simp [dedupNewFilesAux, dedupFirstAux, h, ih]
    · simp [dedupNewFilesAux, dedupFirstAux, h, ih]

lemma snd_eq_nfc_of_mem_dedupNewFilesAux (nfc : Str → Str) :
    ∀ (files reg : List Str) (raw c : Str),
      (raw, c) ∈ dedupNewFilesAux nfc reg files → c = nfc raw := by
  intro files
  induction files with
  | nil => intro reg raw c h; simp [dedupNewFilesAux] at h
  | cons x rest ih =>
    intro reg raw c h
    by_cases hx : nfc x ∈ reg
    · exact ih _ _ _ (by simpa [dedupNewFilesAux, hx] using h)
    · simp only [dedupNewFilesAux, if_neg hx, List.mem_cons] at h
      rcases h with heq | h
      · obtain ⟨rfl, rfl⟩ := Prod.mk.injEq .. ▸ heq
        rfl
      · exact ih _ _ _ h

lemma eq_of_map_nodup {α β : Type} (f : α → β) :
    ∀ (l : List α), (l.map f).Nodup →
      ∀ x, x ∈ l → ∀ y, y ∈ l → f x = f y → x = y := by
  intro l
  induction l with
  | nil => simp
  | cons a t ih =>
    intro hnd x hx y hy hf
    rw [List.map_cons, List.nodup_cons] at hnd
    obtain ⟨ha, ht⟩ := hnd
    rcases List.mem_cons.mp hx with hxa | hxt <;> rcases List.mem_cons.mp hy with hya | hyt
    · rw [hxa, hya]
    · exfalso
      apply ha
      have hfy : f a = f y := by rw [← hxa, hf]
      rw [hfy]
      exact List.mem_map_of_mem f hyt
    · exfalso
      apply ha
      have hfx : f a = f x := by rw [← hya, ← hf]
      rw [hfx]
      exact List.mem_map_of_mem f hxt
    · exact ih ht x hxt y hyt hf

/-- Occurrence count of a string in a list (used to state C2's
"exactly one" without committing to a `BEq` instance). -/
def countEq (x : Str) : List Str → Nat
  | [] => 0
  | y :: t => (if y = x then 1 else 0) + countEq x t

lemma countEq_eq_zero_of_not_mem {x : Str} :
    ∀ {l : List Str}, x ∉ l → countEq x l = 0 := by
  intro l
  induction l with
  | nil => intro; rfl
  | cons y t ih =>
    intro h
    have hy : ¬ y = x := fun hc => h (hc ▸ List.mem_cons_self y t)
    simp only [countEq, if_neg hy, Nat.zero_add]
    exact ih (fun hc => h (List.mem_cons_of_mem y hc))

lemma countEq_eq_one_of_nodup_of_mem {x : Str} :
    ∀ {l : List Str}, l.Nodup → x ∈ l → countEq x l = 1 := by
  intro l
  induction l with
  | nil => intro _ h; exact absurd h (List.not_mem_nil x)
  | cons y t ih =>
    intro hnd hmem
    rw [List.nodup_cons] at hnd
    by_cases hy : y = x
    · subst hy
      simp only [countEq, if_pos rfl]
      rw [countEq_eq_zero_of_not_mem hnd.1]
      simp
    · have hx : x ∈ t := by
        rcases List.mem_cons.mp hmem with hc | hc
        · exact absurd hc.symm hy
        · exact hc
      simp only [countEq, if_neg hy, Nat.zero_add]
      exact ih hnd.2 hx

/-! ## Claim C1 : Link Extractor order and dedup -/

/-- C1 (counterexample): the extractor stores `list(set(found_links))`; the
Python set order is unspecified, so the reversed order is a possible output
for an input whose matches occur as `a` then `b`, and it differs from the
first-occurrence-order dedup the claim asserts.  Hence the extractor does
not guarantee first-occurrence order. -/
theorem c1_extract_counterexample :
    extractLinksRel ["https://soundcloud.com/a https://soundcloud.com/b".data]
      ["https://soundcloud.com/b".data, "https://soundcloud.com/a".data] ∧
    dedupFirst (foundLinks ["https://soundcloud.com/a https://soundcloud.com/b".data]) =
      ["https://soundcloud.com/a".data, "https://soundcloud.com/b".data] ∧
    ["https://soundcloud.com/b".data, "https://soundcloud.com/a".data] ≠
      ["https://soundcloud.com/a".data, "https://soundcloud.com/b".data] := by
  refine ⟨⟨by decide, ?_⟩, by decide, by decide⟩
  intro l
  rw [show foundLinks ["https://soundcloud.com/a https://soundcloud.com/b".data] =
      ["https://soundcloud.com/a".data, "https://soundcloud.com/b".data] from by decide]
  simp only [List.mem_cons, List.not_mem_nil, or_false]
  exact or_comm

/-- C1 (amended): every possible output of the Link Extractor is a
permutation of the first-occurrence-order dedup of the matched URLs — the
dedup is exact/textual (same members, no duplicates) but the order is the
unspecified Python set iteration order, not necessarily first-occurrence
order. -/
theorem c1_extract_perm_of_rel (strings : List Str) (out : List Str)
    (h : extractLinksRel strings out) :
    out.Perm (dedupFirst (foundLinks strings)) := by
  obtain ⟨hnd, hmem⟩ := h
  refine (List.perm_ext_iff_of_nodup hnd (nodup_dedupFirstAux _ _)).mpr ?_
  intro a
  rw [hmem a]
  simp [dedupFirst, mem_dedupFirstAux]

/-- Witness for `c1_extract_perm_of_rel` at the concrete two-link input. -/
theorem c1_extract_perm_of_rel_witness :
    List.Perm ["https://soundcloud.com/b".data, "https://soundcloud.com/a".data]
      (dedupFirst (foundLinks ["https://soundcloud.com/a https://soundcloud.com/b".data])) :=
  c1_extract_perm_of_rel ["https://soundcloud.com/a https://soundcloud.com/b".data]
    ["https://soundcloud.com/b".data, "https://soundcloud.com/a".data]
    ⟨by decide, by
      intro l
      rw [show foundLinks ["https://soundcloud.com/a https://soundcloud.com/b".data] =
          ["https://soundcloud.com/a".data, "https://soundcloud.com/b".data] from by decide]
      simp only [List.mem_cons, List.not_mem_nil, or_false]
      exact or_comm⟩

/-! ## Claim C2 : Dedup/Normalizer uniqueness (spec-modelled) -/

/-- C2: two raw filenames with the same canonical (NFC) form lead to exactly
one accepted entry with that canonical name; the accepted canonical names
are globally unique within the run (the registry grows by each accepted
name, and an already-registered canonical name is discarded); at most one
of the two raw files is accepted. -/
theorem c2_dedup_nfc_unique (nfc : Str → Str) (files : List Str) (a b : Str)
    (ha : a ∈ files) (_hb : b ∈ files) (hab : nfc a = nfc b) :
    countEq (nfc a) ((dedupNewFiles nfc files).map Prod.snd) = 1 ∧
    ((dedupNewFiles nfc files).map Prod.snd).Nodup ∧
    (a ≠ b → ¬ ((∃ x, (a, x) ∈ dedupNewFiles nfc files) ∧
                (∃ y, (b, y) ∈ dedupNewFiles nfc files))) := by
  have hmap : (dedupNewFiles nfc files).map Prod.snd = dedupFirstAux [] (files.map nfc) :=
    dedupNewFilesAux_map_snd nfc files []
  have hnd : ((dedupNewFiles nfc files).map Prod.snd).Nodup := by
    rw [hmap]; exact nodup_dedupFirstAux _ _
  refine ⟨?_, hnd, ?_⟩
  · rw [hmap]
    apply countEq_eq_one_of_nodup_of_mem (nodup_dedupFirstAux _ _)
    rw [mem_dedupFirstAux]
    exact ⟨List.mem_map_of_mem nfc ha, by simp⟩
  · rintro hne ⟨⟨x, hx⟩, ⟨y, hy⟩⟩
    have hx' := snd_eq_nfc_of_mem_dedupNewFilesAux nfc files [] a x hx
    have hy' := snd_eq_nfc_of_mem_dedupNewFilesAux nfc files [] b y hy
    subst hx'
    subst hy'
    have hpair := eq_of_map_nodup Prod.snd (dedupNewFiles nfc files) hnd
      (a, nfc a) hx (b, nfc b) hy (by simpa using hab)
    exact hne (congrArg Prod.fst hpair)

/-- Witness for `c2_dedup_nfc_unique`: two filenames that agree after
lowercasing (standing in for two NFC-equal byte forms). -/
theorem c2_dedup_nfc_unique_witness :
    countEq (pyLower "A.mp3".data)
        ((dedupNewFiles pyLower ["A.mp3".data, "a.mp3".data]).map Prod.snd) = 1 ∧
    ((dedupNewFiles pyLower ["A.mp3".data, "a.mp3".data]).map Prod.snd).Nodup ∧
    ("A.mp3".data ≠ "a.mp3".data →
      ¬ ((∃ x, ("A.mp3".data, x) ∈ dedupNewFiles pyLower ["A.mp3".data, "a.mp3".data]) ∧
         (∃ y, ("a.mp3".data, y) ∈ dedupNewFiles pyLower ["A.mp3".data, "a.mp3".data]))) :=
  c2_dedup_nfc_unique pyLower ["A.mp3".data, "a.mp3".data] "A.mp3".data "a.mp3".data
    (by decide) (by decide) (by decide)

/-! ## Orchestrator lemmas -/

lemma downloadTracks_cons (scdl : Str → Finset Str → Finset Str)
    (link : Str) (rest : List Str) (s : Finset Str) :
    downloadTracks scdl (link :: rest) s =
      if (scdl link s \ s).filter (fun f => isMp3 f = true) = ∅ then
        ((downloadTracks scdl rest (scdl link s)).1,
         link :: (downloadTracks scdl rest (scdl link s)).2)
      else
        ((link, (scdl link s \ s).filter (fun f => isMp3 f = true)) ::
           (downloadTracks scdl rest (scdl link s)).1,
         (downloadTracks scdl rest (scdl link s)).2) := rfl

lemma dirAfterRun_cons (scdl : Str → Finset Str → Finset Str)
    (p : Str) (l : List Str) (s : Finset Str) :
    dirAfterRun scdl (p :: l) s = dirAfterRun scdl l (scdl p s) := rfl

/-! ## Claim C3 : links yielding zero new files -/

/-- C3 (counterexample): when the `scdl` invocation produces no new file,
the link is not recorded at all — `_download_tracks` only logs the warning
in the `else` branch and appends nothing to `self._download_results`, so
the DownloadResult holds no `(link, [])` entry. -/
theorem c3_zero_files_counterexample :
    (downloadTracks (fun _ s => s) ["https://soundcloud.com/a".data] ∅).1 = [] ∧
    (downloadTracks (fun _ s => s) ["https://soundcloud.com/a".data] ∅).2 =
      ["https://soundcloud.com/a".data] := by decide

/-- C3 (amended): a link whose invocation yields zero new audio files is
omitted from the DownloadResult entirely (every recorded entry has a
non-empty track set), the warning is logged for it, and processing
continues with the remaining links. -/
theorem c3_zero_files_amended (scdl : Str → Finset Str → Finset Str)
    (links : List Str) (s0 : Finset Str) :
    (∀ link ts, (link, ts) ∈ (downloadTracks scdl links s0).1 → ts ≠ ∅) ∧
    (∀ link rest s, (scdl link s \ s).filter (fun f => isMp3 f = true) = ∅ →
      downloadTracks scdl (link :: rest) s =
        ((downloadTracks scdl rest (scdl link s)).1,
         link :: (downloadTracks scdl rest (scdl link s)).2)) := by
  constructor
  · induction links generalizing s0 with
    | nil => intro link ts h; simp [downloadTracks] at h
    | cons l rest ih =>
      intro link ts h
      rw [downloadTracks_cons] at h
      by_cases hemp : (scdl l s0 \ s0).filter (fun f => isMp3 f = true) = ∅
      · rw [if_pos hemp] at h
        exact ih (scdl l s0) link ts h
      · rw [if_neg hemp] at h
        rcases List.mem_cons.mp h with heq | h
        · obtain ⟨-, rfl⟩ := Prod.mk.injEq .. ▸ heq
          exact hemp
        · exact ih (scdl l s0) link ts h
  · intro link rest s h
    rw [downloadTracks_cons, if_pos h]

/-- Witness for `c3_zero_files_amended`: one run with an entry and one
zero-yield invocation. -/
theorem c3_zero_files_amended_witness :
    ({"y.mp3".data} : Finset Str) ≠ ∅ ∧
    downloadTracks (fun _ s => s) ["https://soundcloud.com/a".data] ∅ =
      ((downloadTracks (fun (_ : Str) (s : Finset Str) => s) [] ∅).1,
       "https://soundcloud.com/a".data ::
         (downloadTracks (fun (_ : Str) (s : Finset Str) => s) [] ∅).2) :=
  ⟨(c3_zero_files_amended (fun _ s => s ∪ {"x.mp3".data, "y.mp3".data})
      ["https://soundcloud.com/t".data] {"x.mp3".data}).1
      "https://soundcloud.com/t".data {"y.mp3".data} (by decide),
   (c3_zero_files_amended (fun _ s => s) [] ∅).2
      "https://soundcloud.com/a".data [] ∅ (by decide)⟩

/-! ## Claim C4 : new files = filtered directory diff -/

/-- C4: for every link, the files attributed to it are exactly the audio
files in the set-difference between the directory listing right after its
invocation and the listing right before it (the listing before being the
state left by the preceding links); and the concrete scenario: with
`x.mp3` already present and `{x.mp3, y.mp3}` present afterwards, only
`y.mp3` is attributed. -/
theorem c4_attribution_is_filtered_diff :
    (∀ (scdl : Str → Finset Str → Finset Str) (s0 : Finset Str)
       (pre : List Str) (link : Str) (post : List Str),
      (downloadTracks scdl (pre ++ link :: post) s0).1 =
        (downloadTracks scdl pre s0).1 ++
        (if (scdl link (dirAfterRun scdl pre s0) \ dirAfterRun scdl pre s0).filter
              (fun f => isMp3 f = true) = ∅ then []
         else [(link,
            (scdl link (dirAfterRun scdl pre s0) \ dirAfterRun scdl pre s0).filter
              (fun f => isMp3 f = true))]) ++
        (downloadTracks scdl post (scdl link (dirAfterRun scdl pre s0))).1) ∧
    downloadTracks (fun _ s => s ∪ {"x.mp3".data, "y.mp3".data})
        ["https://soundcloud.com/t".data] {"x.mp3".data} =
      ([("https://soundcloud.com/t".data, {"y.mp3".data})], []) := by
  constructor
  · intro scdl s0 pre
    induction pre generalizing s0 with
    | nil =>
      intro link post
      by_cases hemp : (scdl link (dirAfterRun scdl [] s0) \ dirAfterRun scdl [] s0).filter
          (fun f => isMp3 f = true) = ∅
      · simp [downloadTracks_cons, downloadTracks, dirAfterRun] at hemp ⊢
        rw [if_pos hemp, if_pos hemp]
        rfl
      · simp [downloadTracks_cons, downloadTracks, dirAfterRun] at hemp ⊢
        rw [if_neg hemp, if_neg hemp]
        simp
    | cons p pre ih =>
      intro link post
      by_cases hp : (scdl p s0 \ s0).filter (fun f => isMp3 f = true) = ∅
      · rw [List.cons_append, downloadTracks_cons, downloadTracks_cons, if_pos hp, if_pos hp]
        rw [dirAfterRun_cons]
        exact ih (scdl p s0) link post
      · rw [List.cons_append, downloadTracks_cons, downloadTracks_cons, if_neg hp, if_neg hp]
        rw [dirAfterRun_cons]
        simp only [List.cons_append]
        rw [ih (scdl p s0) link post]
  · decide

/-! ## Claim C5 : no short-circuit on empty input -/

/-- C5 (counterexample): an input with no SoundCloud link extracts the
empty link list, yet `process_strings` still runs `_create_zip` and
`_generate_html_page` — there is no early return, no zero-link warning,
and the (empty) archive and page are produced.  This contradicts the
claimed short-circuit with no archive creation and no page generation. -/
theorem c5_short_circuit_counterexample :
    foundLinks ["hello".data] = [] ∧
    extractLinksRel ["hello".data] [] ∧
    (processRun (fun _ => none) (fun _ s => s) ∅ []).zipCreated = true ∧
    (processRun (fun _ => none) (fun _ s => s) ∅ []).pageGenerated = true ∧
    (processRun (fun _ => none) (fun _ s => s) ∅ []).results = [] := by
  refine ⟨by decide, ⟨List.nodup_nil, ?_⟩, rfl, rfl, rfl⟩
  intro l
  rw [show foundLinks ["hello".data] = [] from by decide]

/-- C5 (amended): the pipeline never short-circuits.  When the input
contains no usable links the extraction is empty, the download stage
performs no invocation and records nothing, and the archive and page are
still produced (empty). -/
theorem c5_no_short_circuit (head : Str → Option (Nat × Str))
    (scdl : Str → Finset Str → Finset Str) (s0 : Finset Str)
    (strings : List Str) (out : List Str)
    (hrel : extractLinksRel strings out) (hempty : foundLinks strings = []) :
    out = [] ∧
    (processRun head scdl s0 out).results = [] ∧
    (processRun head scdl s0 out).emptyLinkWarnings = [] ∧
    (processRun head scdl s0 out).zipCreated = true ∧
    (processRun head scdl s0 out).pageGenerated = true := by
  have hout : out = [] := by
    rcases out with - | ⟨x, xs⟩
    · rfl
    · exfalso
      have hx := (hrel.2 x).mp (List.mem_cons_self x xs)
      rw [hempty] at hx
      exact absurd hx (List.not_mem_nil x)
  subst hout
  exact ⟨rfl, rfl, rfl, rfl, rfl⟩

/-- Witness for `c5_no_short_circuit` at the linkless input `"hello"`. -/
theorem c5_no_short_circuit_witness :
    ([] : List Str) = [] ∧
    (processRun (fun _ => none) (fun _ s => s) ∅ []).results = [] ∧
    (processRun (fun _ => none) (fun _ s => s) ∅ []).emptyLinkWarnings = [] ∧
    (processRun (fun _ => none) (fun _ s => s) ∅ []).zipCreated = true ∧
    (processRun (fun _ => none) (fun _ s => s) ∅ []).pageGenerated = true :=
  c5_no_short_circuit (fun _ => none) (fun _ s => s) ∅ ["hello".data] []
    ⟨List.nodup_nil, fun l => by
      rw [show foundLinks ["hello".data] = [] from by decide]⟩
    (by decide)

/-! ## Claim C10 : case-insensitive audio extension filter -/

/-- The dot-and-digit-fixed letter casings of the `.mp3` extension. -/
def mp3Suffixes : List Str := [".mp3".data, ".Mp3".data, ".mP3".data, ".MP3".data]

lemma startsWithL_append (p r : Str) : startsWithL (p ++ r) p = true := by
  induction p with
  | nil => cases r <;> rfl
  | cons c cs ih => simp [startsWithL, ih]

lemma endsWithL_append (a b : Str) : endsWithL (a ++ b) b = true := by
  unfold endsWithL
  rw [List.reverse_append]
  exact startsWithL_append _ _

lemma exists_of_startsWithL :
    ∀ (pre hay : Str), startsWithL hay pre = true → ∃ r, hay = pre ++ r := by
  intro pre
  induction pre with
  | nil => intro hay _; exact ⟨hay, rfl⟩
  | cons p ps ih =>
    intro hay h
    cases hay with
    | nil => simp [startsWithL] at h
    | cons x xs =>
      simp only [startsWithL, Bool.and_eq_true, decide_eq_true_eq] at h
      obtain ⟨r, hr⟩ := ih xs h.2
      exact ⟨r, by rw [h.1, hr]; rfl⟩

lemma exists_of_endsWithL (hay suf : Str) (h : endsWithL hay suf = true) :
    ∃ pre, hay = pre ++ suf := by
  obtain ⟨r, hr⟩ := exists_of_startsWithL suf.reverse hay.reverse h
  refine ⟨r.reverse, ?_⟩
  rw [← List.reverse_reverse hay, hr, List.reverse_append, List.reverse_reverse]

lemma isMp3_of_suffix (f v : Str) (hv : v ∈ mp3Suffixes)
    (h : endsWithL f v = true) : isMp3 f = true := by
  obtain ⟨pre, rfl⟩ := exists_of_endsWithL f v h
  unfold isMp3 pyLower
  rw [List.map_append]
  have hlow : v.map charLowerAscii = ".mp3".data := by
    simp only [mp3Suffixes, List.mem_cons, List.not_mem_nil, or_false] at hv
    rcases hv with rfl | rfl | rfl | rfl <;> decide
  rw [hlow]
  exact endsWithL_append _ _

/-- C10: any newly observed file whose name ends in `.mp3` under any letter
casing of the extension passes the `f.lower().endswith(".mp3")` filter and
is attributed to the current link. -/
theorem c10_mp3_filter_case_insensitive (scdl : Str → Finset Str → Finset Str)
    (s0 : Finset Str) (link f v : Str) (hv : v ∈ mp3Suffixes)
    (hsuf : endsWithL f v = true) (hin : f ∈ scdl link s0) (hnot : f ∉ s0) :
    ∃ ts, (downloadTracks scdl [link] s0).1 = [(link, ts)] ∧ f ∈ ts := by
  have hmp3 : isMp3 f = true := isMp3_of_suffix f v hv hsuf
  have hmem : f ∈ (scdl link s0 \ s0).filter (fun g => isMp3 g = true) := by
    rw [Finset.mem_filter, Finset.mem_sdiff]
    exact ⟨⟨hin, hnot⟩, hmp3⟩
  have hne : (scdl link s0 \ s0).filter (fun g => isMp3 g = true) ≠ ∅ :=
    Finset.ne_empty_of_mem hmem
  refine ⟨_, ?_, hmem⟩
  rw [downloadTracks_cons, if_neg hne]
  rfl

/-- Witness for `c10_mp3_filter_case_insensitive`: a new file named
`SONG.MP3` is attributed. -/
theorem c10_mp3_filter_case_insensitive_witness :
    ∃ ts, (downloadTracks (fun _ s => s ∪ {"SONG.MP3".data})
        ["https://soundcloud.com/t".data] ∅).1 = [("https://soundcloud.com/t".data, ts)] ∧
      "SONG.MP3".data ∈ ts :=
  c10_mp3_filter_case_insensitive (fun _ s => s ∪ {"SONG.MP3".data}) ∅
    "https://soundcloud.com/t".data "SONG.MP3".data ".MP3".data
    (by decide) (by decide) (by decide) (by decide)

/-! ## Resolver lemmas -/

/-- The per-link action of `_resolve_short_links` (body of its loop). -/
def resolveOne (head : Str → Option (Nat × Str)) (link : Str) : Str :=
  if isShortLink link then
    match head link with
    | some (_, fullUrl) => fullUrl
    | none => link
  else link

lemma resolveLinks_fst (head : Str → Option (Nat × Str)) :
    ∀ links : List Str, (resolveLinks head links).1 = links.map (resolveOne head) := by
  intro links
  induction links with
  | nil => rfl
  | cons l rest ih =>
    by_cases h : isShortLink l = true
    · cases hh : head l with
      | none => simp [resolveLinks, resolveOne, h, hh, ih]
      | some p =>
        cases p with
        | mk st u => simp [resolveLinks, resolveOne, h, hh, ih]
    · simp [resolveLinks, resolveOne, h, ih]

lemma resolveLinks_snd (head : Str → Option (Nat × Str)) :
    ∀ links : List Str,
      (resolveLinks head links).2 = links.filter (fun l => isShortLink l) := by
  intro links
  induction links with
  | nil => rfl
  | cons l rest ih =>
    by_cases h : isShortLink l = true
    · cases hh : head l with
      | none => simp [resolveLinks, h, hh, ih]
      | some p =>
        cases p with
        | mk st u => simp [resolveLinks, h, hh, ih]
    · simp [resolveLinks, h, ih]

/-- Host-based canonical form: the URL's host is `soundcloud.com`, not the
short host `on.soundcloud.com` (the spec's "canonical host pattern"). -/
def canonicalHostForm (l : Str) : Bool :=
  startsWithL l "http://soundcloud.com/".data || startsWithL l "https://soundcloud.com/".data

/-! ## Claim C8 : canonical links pass through unchanged -/

/-- C8 (counterexample): the resolver classifies by the substring test
`"on.soundcloud.com" in link`, not by host.  The extracted link
`https://soundcloud.com/a/on.soundcloud.com` has the canonical host, yet
it is sent through resolution and replaced by the response URL, so the
resolver is not the identity on this canonical-form link. -/
theorem c8_canonical_identity_counterexample :
    foundLinks ["https://soundcloud.com/a/on.soundcloud.com".data] =
      ["https://soundcloud.com/a/on.soundcloud.com".data] ∧
    canonicalHostForm "https://soundcloud.com/a/on.soundcloud.com".data = true ∧
    isShortLink "https://soundcloud.com/a/on.soundcloud.com".data = true ∧
    (resolveLinks (fun _ => some (200, "https://soundcloud.com/resolved".data))
        ["https://soundcloud.com/a/on.soundcloud.com".data]).1 =
      ["https://soundcloud.com/resolved".data] ∧
    ["https://soundcloud.com/resolved".data] ≠
      ["https://soundcloud.com/a/on.soundcloud.com".data] := by decide

/-- C8 (amended): a link that does not contain the substring
`on.soundcloud.com` passes through the resolver unchanged, at its original
position; the output has one link per input link. -/
theorem c8_passthrough_unchanged (head : Str → Option (Nat × Str))
    (links : List Str) (i : Nat) (hi : i < links.length)
    (hshort : isShortLink links[i] = false) :
    (resolveLinks head links).1.length = links.length ∧
    (resolveLinks head links).1[i]? = some links[i] := by
  have hmap := resolveLinks_fst head links
  constructor
  · rw [hmap, List.length_map]
  · rw [hmap, List.getElem?_map, List.getElem?_eq_getElem hi]
    simp [resolveOne, hshort]

/-- Witness for `c8_passthrough_unchanged` on a canonical link. -/
theorem c8_passthrough_unchanged_witness :
    (resolveLinks (fun _ => some (200, "https://soundcloud.com/other".data))
        ["https://soundcloud.com/a/b".data]).1.length =
      (["https://soundcloud.com/a/b".data] : List Str).length ∧
    (resolveLinks (fun _ => some (200, "https://soundcloud.com/other".data))
        ["https://soundcloud.com/a/b".data]).1[0]? =
      some (["https://soundcloud.com/a/b".data] : List Str)[0] :=
  c8_passthrough_unchanged (fun _ => some (200, "https://soundcloud.com/other".data))
    ["https://soundcloud.com/a/b".data] 0 (by decide) (by decide)

/-! ## Claim C9 : failure policy of the resolver -/

/-- C9 (counterexample): a redirect chain that terminates in a non-2xx
response does not raise `requests.RequestException`; the code takes
`response.url` without inspecting the status, so the short link is replaced
by the terminal URL instead of being kept. -/
theorem c9_non2xx_counterexample :
    isShortLink "https://on.soundcloud.com/x".data = true ∧
    (resolveLinks (fun _ => some (404, "https://soundcloud.com/dead".data))
        ["https://on.soundcloud.com/x".data]).1 =
      ["https://soundcloud.com/dead".data] ∧
    ["https://soundcloud.com/dead".data] ≠ ["https://on.soundcloud.com/x".data] := by decide

/-- C9 (amended): exactly one `requests.head` attempt is made per short
link (the call log equals the sublist of short links); when the attempt
raises a transport exception (timeout, DNS failure, malformed/too-long
redirect chain) the original short link is kept at its position; when a
response is returned, its final URL is accepted regardless of its status
code, so a non-2xx terminal response does not keep the original link. -/
theorem c9_failure_policy (head : Str → Option (Nat × Str))
    (links : List Str) (i : Nat) (hi : i < links.length) :
    (resolveLinks head links).2 = links.filter (fun l => isShortLink l) ∧
    (isShortLink links[i] = true → head links[i] = none →
      (resolveLinks head links).1[i]? = some links[i]) ∧
    (∀ st u, isShortLink links[i] = true → head links[i] = some (st, u) →
      (resolveLinks head links).1[i]? = some u) := by
  have hmap := resolveLinks_fst head links
  refine ⟨resolveLinks_snd head links, ?_, ?_⟩
  · intro hs hn
    rw [hmap, List.getElem?_map, List.getElem?_eq_getElem hi]
    simp [resolveOne, hs, hn]
  · intro st u hs hr
    rw [hmap, List.getElem?_map, List.getElem?_eq_getElem hi]
    simp [resolveOne, hs, hr]

/-- Witness for `c9_failure_policy`: a short link whose resolution raises. -/
theorem c9_failure_policy_witness :
    (resolveLinks (fun _ => none) ["https://on.soundcloud.com/x".data]).2 =
      (["https://on.soundcloud.com/x".data] : List Str).filter (fun l => isShortLink l) ∧
    (resolveLinks (fun _ => none) ["https://on.soundcloud.com/x".data]).1[0]? =
      some (["https://on.soundcloud.com/x".data] : List Str)[0] :=
  ⟨(c9_failure_policy (fun _ => none) ["https://on.soundcloud.com/x".data] 0 (by decide)).1,
   (c9_failure_policy (fun _ => none) ["https://on.soundcloud.com/x".data] 0 (by decide)).2.1
     (by decide) rfl⟩

/-! ## Claim C6 : archive contents -/

lemma createZip_arcnames (outputDir : Str) :
    ∀ rs : DownloadResult,
      (createZip outputDir rs).map Prod.snd = rs.flatMap (fun r => r.2.map Prod.fst) := by
  intro rs
  induction rs with
  | nil => rfl
  | cons r rest ih =>
    simp only [createZip, List.flatMap_cons, List.map_append, List.map_map] at ih ⊢
    rw [ih]
    rfl

lemma mem_flatMap_tracks (a : Str) (rs : DownloadResult) :
    a ∈ rs.flatMap (fun r => r.2.map Prod.fst) ↔
      ∃ link td, (link, td) ∈ rs ∧ ∃ c, (a, c) ∈ td := by
  rw [List.mem_flatMap]
  constructor
  · rintro ⟨⟨link, td⟩, hr, ha⟩
    rw [List.mem_map] at ha
    obtain ⟨⟨m, c⟩, hm, heq⟩ := ha
    exact ⟨link, td, hr, c, by rw [show a = m from heq.symm]; exact hm⟩
  · rintro ⟨link, td, hr, c, hc⟩
    exact ⟨(link, td), hr, List.mem_map.mpr ⟨(a, c), hc, rfl⟩⟩

/-- C6: the archive receives exactly the audio filenames of the final
DownloadResult — same multiset of write calls in DownloadResult order
(first conjunct), same set of names (second conjunct), never the archive
itself when every track is an `.mp3` file (third conjunct) — and each entry
is stored under the bare filename: the source path carries the directory,
the arcname is exactly the track's filename (first and fourth conjuncts). -/
theorem c6_zip_equals_download_result (outputDir : Str) (results : DownloadResult)
    (hnames : ∀ link td, (link, td) ∈ results → ∀ m c, (m, c) ∈ td → isMp3 m = true) :
    ((createZip outputDir results).map Prod.snd =
      results.flatMap (fun r => r.2.map Prod.fst)) ∧
    (∀ a, a ∈ (createZip outputDir results).map Prod.snd ↔
      ∃ link td, (link, td) ∈ results ∧ ∃ c, (a, c) ∈ td) ∧
    "all_tracks.zip".data ∉ (createZip outputDir results).map Prod.snd ∧
    (∀ p, p ∈ createZip outputDir results → p.1 = outputDir ++ "/".data ++ p.2) := by
  have h1 := createZip_arcnames outputDir results
  have h2 : ∀ a, a ∈ (createZip outputDir results).map Prod.snd ↔
      ∃ link td, (link, td) ∈ results ∧ ∃ c, (a, c) ∈ td := by
    intro a
    rw [h1]
    exact mem_flatMap_tracks a results
  refine ⟨h1, h2, ?_, ?_⟩
  · intro hmem
    obtain ⟨link, td, hr, c, hc⟩ := (h2 _).mp hmem
    exact absurd (hnames link td hr _ _ hc) (by decide)
  · intro p hp
    unfold createZip at hp
    rw [List.mem_flatMap] at hp
    obtain ⟨⟨link, td⟩, hr, hpm⟩ := hp
    rw [List.mem_map] at hpm
    obtain ⟨⟨m, c⟩, hm, heq⟩ := hpm
    rw [← heq]

/-- Witness for `c6_zip_equals_download_result` on a two-track result. -/
theorem c6_zip_equals_download_result_witness :
    ((createZip "html/soundcloud_downloads".data
        [("https://soundcloud.com/a".data, [("a.mp3".data, none), ("b.mp3".data, some "b.jpg".data)])]).map
          Prod.snd =
      ([("https://soundcloud.com/a".data,
        [("a.mp3".data, (none : Option Str)), ("b.mp3".data, some "b.jpg".data)])] : DownloadResult).flatMap
          (fun r => r.2.map Prod.fst)) ∧
    (∀ a, a ∈ (createZip "html/soundcloud_downloads".data
        [("https://soundcloud.com/a".data, [("a.mp3".data, none), ("b.mp3".data, some "b.jpg".data)])]).map
          Prod.snd ↔
      ∃ link td, (link, td) ∈
          ([("https://soundcloud.com/a".data,
            [("a.mp3".data, (none : Option Str)), ("b.mp3".data, some "b.jpg".data)])] : DownloadResult) ∧
        ∃ c, (a, c) ∈ td) ∧
    "all_tracks.zip".data ∉ (createZip "html/soundcloud_downloads".data
        [("https://soundcloud.com/a".data, [("a.mp3".data, none), ("b.mp3".data, some "b.jpg".data)])]).map
          Prod.snd ∧
    (∀ p, p ∈ createZip "html/soundcloud_downloads".data
        [("https://soundcloud.com/a".data, [("a.mp3".data, none), ("b.mp3".data, some "b.jpg".data)])] →
      p.1 = "html/soundcloud_downloads".data ++ "/".data ++ p.2) :=
  c6_zip_equals_download_result "html/soundcloud_downloads".data
    [("https://soundcloud.com/a".data, [("a.mp3".data, none), ("b.mp3".data, some "b.jpg".data)])]
    (by
      intro link td hr m c hc
      have htd : td = [("a.mp3".data, none), ("b.mp3".data, some "b.jpg".data)] := by
        rw [List.mem_singleton] at hr
        exact congrArg Prod.snd hr
      subst htd
      have hm : m = "a.mp3".data ∨ m = "b.mp3".data := by
        simp only [List.mem_cons, List.not_mem_nil, or_false] at hc
        rcases hc with hc | hc
        · exact Or.inl (congrArg Prod.fst hc)
        · exact Or.inr (congrArg Prod.fst hc)
      rcases hm with rfl | rfl <;> decide)

/-! ## Claim C7 : page generator anchor identifiers -/

lemma length_collectLinkTracks (link : Str) :
    ∀ (td : List (Str × Option Str)) (c : Nat),
      (collectLinkTracks c link td).length = td.length := by
  intro td
  induction td with
  | nil => intro c; rfl
  | cons hd tl ih =>
    intro c
    cases hd with
    | mk m img => simp [collectLinkTracks, ih]

lemma anchor_collectLinkTracks (link : Str) :
    ∀ (td : List (Str × Option Str)) (c i : Nat)
      (h : i < (collectLinkTracks c link td).length),
      ((collectLinkTracks c link td).get ⟨i, h⟩).anchorId =
        "track-".data ++ (Nat.repr (c + i)).data := by
  intro td
  induction td with
  | nil => intro c i h; simp [collectLinkTracks] at h
  | cons hd tl ih =>
    intro c i h
    cases hd with
    | mk m img =>
      cases i with
      | zero => simp [collectLinkTracks]
      | succ j =>
        have h' : j < (collectLinkTracks (c + 1) link tl).length := by
          have hl := h
          simp only [collectLinkTracks, List.length_cons] at hl
          omega
        simp only [collectLinkTracks, List.get_cons_succ]
        rw [ih (c + 1) j h']
        have harith : c + 1 + j = c + (j + 1) := by omega
        rw [harith]

lemma anchor_collectOrderedTracksAux :
    ∀ (rs : DownloadResult) (c i : Nat)
      (h : i < (collectOrderedTracksAux c rs).length),
      ((collectOrderedTracksAux c rs).get ⟨i, h⟩).anchorId =
        "track-".data ++ (Nat.repr (c + i)).data := by
  intro rs
  induction rs with
  | nil => intro c i h; simp [collectOrderedTracksAux] at h
  | cons r rest ih =>
    intro c i h
    cases r with
    | mk link td =>
      simp only [collectOrderedTracksAux] at h ⊢
      rw [List.get_eq_getElem]
      by_cases hi : i < (collectLinkTracks c link td).length
      · rw [List.getElem_append_left hi]
        exact anchor_collectLinkTracks link td c i hi
      · have hle : (collectLinkTracks c link td).length ≤ i := Nat.le_of_not_lt hi
        rw [List.getElem_append_right hle]
        have hlen := length_collectLinkTracks link td c
        have hsum : i < (collectLinkTracks c link td).length +
            (collectOrderedTracksAux (c + td.length) rest).length := by
          rw [List.length_append] at h
          exact h
        have h' : i - (collectLinkTracks c link td).length <
            (collectOrderedTracksAux (c + td.length) rest).length := by omega
        have hih := ih (c + td.length) (i - (collectLinkTracks c link td).length) h'
        have harith : c + td.length + (i - (collectLinkTracks c link td).length) = c + i := by
          rw [hlen] at hle ⊢
          omega
        rw [harith] at hih
        exact hih

lemma map_collectLinkTracks (link : Str) :
    ∀ (td : List (Str × Option Str)) (c : Nat),
      (collectLinkTracks c link td).map (fun t => (t.link, t.mp3File)) =
        td.map (fun p => (link, p.1)) := by
  intro td
  induction td with
  | nil => intro c; rfl
  | cons hd tl ih =>
    intro c
    cases hd with
    | mk m img => simp [collectLinkTracks, ih]

lemma map_collectOrderedTracksAux :
    ∀ (rs : DownloadResult) (c : Nat),
      (collectOrderedTracksAux c rs).map (fun t => (t.link, t.mp3File)) =
        rs.flatMap (fun r => r.2.map (fun p => (r.1, p.1))) := by
  intro rs
  induction rs with
  | nil => intro c; rfl
  | cons r rest ih =>
    intro c
    cases r with
    | mk link td =>
      simp only [collectOrderedTracksAux, List.flatMap_cons, List.map_append]
      rw [map_collectLinkTracks link td c, ih]

/-- C7: anchor identifiers are assigned in DownloadResult iteration order
(outer loop over links, inner loop over the link's tracks): the track at
0-based position `i` of the collected list carries anchor `track-(i+1)`,
so anchors are `track-1`, `track-2`, … in strictly increasing order; and
the collected list is exactly the flattening of the DownloadResult. -/
theorem c7_anchor_ids (results : DownloadResult) (i : Nat)
    (h : i < (collectOrderedTracks results).length) :
    ((collectOrderedTracks results).get ⟨i, h⟩).anchorId =
      "track-".data ++ (Nat.repr (i + 1)).data ∧
    (collectOrderedTracks results).map (fun t => (t.link, t.mp3File)) =
      results.flatMap (fun r => r.2.map (fun p => (r.1, p.1))) := by
  constructor
  · have hanch := anchor_collectOrderedTracksAux results 1 i h
    have harith : 1 + i = i + 1 := by omega
    rw [harith] at hanch
    exact hanch
  · exact map_collectOrderedTracksAux results 1

/-- Witness for `c7_anchor_ids`: the second of two tracks of one link gets
anchor `track-2`. -/
theorem c7_anchor_ids_witness :
    ((collectOrderedTracks
        [("https://soundcloud.com/a".data, [("a.mp3".data, none), ("b.mp3".data, none)])]).get
      ⟨1, by decide⟩).anchorId = "track-".data ++ (Nat.repr (1 + 1)).data ∧
    (collectOrderedTracks
        [("https://soundcloud.com/a".data, [("a.mp3".data, none), ("b.mp3".data, none)])]).map
      (fun t => (t.link, t.mp3File)) =
      ([("https://soundcloud.com/a".data,
        [("a.mp3".data, (none : Option Str)), ("b.mp3".data, none)])] : DownloadResult).flatMap
        (fun r => r.2.map (fun p => (r.1, p.1))) :=
  c7_anchor_ids
    [("https://soundcloud.com/a".data, [("a.mp3".data, none), ("b.mp3".data, none)])]
    1 (by decide)
